import Mathlib

/-!
Shallow embedding of the feature-encoding / training-data pipeline of the
`fundamentos-ia` repository (the two TensorFlow.js model-training workers).

JavaScript numbers are modelled by `ℚ` in the main development (exact
rational arithmetic; the encodings only use +, -, *, / on small literals).
JavaScript exceptions (e.g. calling `.dataSync()` on `undefined`, `tf.oneHot`
on an `undefined` index, `tf.stack` on ragged or empty inputs) are modelled
by `Option`: `none` means the JS code throws.

A second, separate model (`JsNum`, `makeContextJs`) captures the
IEEE-754-special-value behaviour of `Math.min(...[])`, `Math.max(...[])`,
`||` on numbers and division, which matters for the behaviour of
`makeContext` on empty collections.
-/

namespace Fia

/-- A product record: `{id, name, category, price, color}` as in
`data/products.json` and in `user.purchases`. -/
structure Product where
  id : Nat
  name : String
  category : String
  color : String
  price : ℚ
deriving DecidableEq, Repr

/-- A user record: `{id, name, age, purchases}`. -/
structure User where
  id : Nat
  name : String
  age : ℚ
  purchases : List Product
deriving DecidableEq, Repr

/-- Field weights of `WEIGHTS` in both worker files. -/
structure WeightsT where
  category : ℚ
  color : ℚ
  price : ℚ
  age : ℚ
deriving DecidableEq, Repr

/-- `const WEIGHTS = { category: 0.4, color: 0.3, price: 0.2, age: 0.1 }`. -/
def WEIGHTS : WeightsT :=
  { category := 0.4, color := 0.3, price := 0.2, age := 0.1 }

/-- JS `a || b` on numbers restricted to rationals: `0` is the only falsy
rational (`NaN` does not exist in `ℚ`; it is handled in the `JsNum` model). -/
def jsOr (a b : ℚ) : ℚ := if a = 0 then b else a

/-- `const normalize = (value, min, max) => (value - min) / (max - min || 1)`. -/
def normalize (value lo hi : ℚ) : ℚ := (value - lo) / jsOr (hi - lo) 1

/-- `Math.min(...list)` for a NON-empty list of rationals (first element is
the fold seed; the empty-spread case, which yields `Infinity` in JS, is
modelled by `jsMinSpread` on `JsNum`). -/
def listMin : List ℚ → ℚ
  | [] => 0
  | x :: xs => xs.foldl min x

/-- `Math.max(...list)` for a NON-empty list of rationals. -/
def listMax : List ℚ → ℚ
  | [] => 0
  | x :: xs => xs.foldl max x

/-- `[...new Set(l)]`: deduplication keeping the FIRST occurrence of each
element, in insertion order, exactly like iterating a JS `Set`. -/
def setDedup (l : List String) : List String :=
  l.foldl (fun acc x => if x ∈ acc then acc else acc ++ [x]) []

/-- One step of the `ageSums` / `ageCounts` accumulation: JS object field
update is modelled by consing onto an association list (lookup returns the
most recent write); `(obj[k] || 0) + v` reads the previous value with JS
truthiness. -/
def bumpEntry (m : List (String × ℚ)) (k : String) (v : ℚ) : List (String × ℚ) :=
  (k, jsOr ((List.lookup k m).getD 0) 0 + v) :: m

/-- The `users.forEach(... user.purchases.forEach(...))` loop building
`ageSums` (first component) and `ageCounts` (second component). -/
def ageTally (users : List User) : List (String × ℚ) × List (String × ℚ) :=
  users.foldl
    (fun acc user =>
      user.purchases.foldl
        (fun acc purchase =>
          (bumpEntry acc.1 purchase.name user.age,
           bumpEntry acc.2 purchase.name 1))
        acc)
    ([], [])

/-- The body of the `productAvgAgeNorm` map: `ageCounts[product.name] ?
ageSums[product.name] / ageCounts[product.name] : avgAge` (JS truthiness of
the looked-up count; an absent key reads as `undefined`, falsy). -/
def productAvgValue (sums counts : List (String × ℚ)) (avgAge : ℚ)
    (name : String) : ℚ :=
  if (List.lookup name counts).getD 0 ≠ 0 then
    (List.lookup name sums).getD 0 / (List.lookup name counts).getD 0
  else avgAge

/-- The derived normalization state returned by `makeContext`. -/
structure Context where
  products : List Product
  users : List User
  colorsIndex : List (String × Nat)
  categoriesIndex : List (String × Nat)
  minAge : ℚ
  maxAge : ℚ
  minPrice : ℚ
  maxPrice : ℚ
  productAvgAgeNorm : List (String × ℚ)
  numCategories : Nat
  numColors : Nat
  dimensions : Nat
deriving DecidableEq, Repr

/-- `makeContext(products, users)` (faithful for non-empty `products` and
`users`, where every `Math.min` / `Math.max` spread is over a non-empty
list; the empty case is modelled by `makeContextJs`). -/
def makeContext (products : List Product) (users : List User) : Context :=
  let ages := users.map (fun user => user.age)
  let prices := products.map (fun product => product.price)
  let minAge := listMin ages
  let maxAge := listMax ages
  let minPrice := listMin prices
  let maxPrice := listMax prices
  let colors := setDedup (products.map (fun product => product.color))
  let categories := setDedup (products.map (fun product => product.category))
  let colorsIndex := colors.enum.map (fun e => (e.2, e.1))
  let categoriesIndex := categories.enum.map (fun e => (e.2, e.1))
  let avgAge := (minAge + maxAge) / 2
  let tally := ageTally users
  let productAvgAgeNorm := products.map (fun product =>
    (product.name,
      normalize (productAvgValue tally.1 tally.2 avgAge product.name) minAge maxAge))
  { products := products
    users := users
    colorsIndex := colorsIndex
    categoriesIndex := categoriesIndex
    minAge := minAge
    maxAge := maxAge
    minPrice := minPrice
    maxPrice := maxPrice
    productAvgAgeNorm := productAvgAgeNorm
    numCategories := categories.length
    numColors := colors.length
    dimensions := 2 + categories.length + colors.length }

/-- `tf.oneHot(index, length)`: a `length`-vector with `1` at position
`index` and `0` elsewhere (all zeros when `index` is out of range). -/
def oneHot (index length : Nat) : List ℚ :=
  (List.range length).map (fun i => if i = index then 1 else 0)

/-- `const oneHotWeighted = (index, length, weight) =>
tf.oneHot(index, length).cast("float32").mul(weight)`. -/
def oneHotWeighted (index length : Nat) (weight : ℚ) : List ℚ :=
  (oneHot index length).map (fun x => x * weight)

/-- `encodeProduct(product, context)`: `none` models the JS throw when
`context.categoriesIndex[product.category]` or
`context.colorsIndex[product.color]` is `undefined` (then `tf.oneHot`
rejects the index); `?? 0.5` on the average-age lookup is `Option.getD`. -/
def encodeProduct (product : Product) (context : Context) : Option (List ℚ) :=
  let price := [normalize product.price context.minPrice context.maxPrice * WEIGHTS.price]
  let age := [(List.lookup product.name context.productAvgAgeNorm).getD 0.5 * WEIGHTS.age]
  match List.lookup product.category context.categoriesIndex,
        List.lookup product.color context.colorsIndex with
  | some catIdx, some colIdx =>
      some (price ++ age ++
        oneHotWeighted catIdx context.numCategories WEIGHTS.category ++
        oneHotWeighted colIdx context.numColors WEIGHTS.color)
  | _, _ => none

/-- `tf.stack(rows).mean(0)`: pointwise mean over a non-empty list of
equal-length vectors; `none` models the `tf.stack` throw on an empty list or
on ragged rows. -/
def stackMean (rows : List (List ℚ)) : Option (List ℚ) :=
  match rows with
  | [] => none
  | r :: rs =>
    if rs.all (fun s => s.length = r.length) then
      some ((List.range r.length).map (fun i =>
        ((r :: rs).map (fun s => s.getD i 0)).sum / (r :: rs).length))
    else none

/-- `mapM` over `Option` written by structural recursion: models a JS loop
whose body may throw (a `none` anywhere aborts the whole computation). -/
def optMap (f : α → Option β) : List α → Option (List β)
  | [] => some []
  | x :: xs =>
    match f x, optMap f xs with
    | some y, some ys => some (y :: ys)
    | _, _ => none

/-- `encodeUser(user, context)`: `undefined` (empty purchase list) is
`none`; otherwise stack-mean of the purchase encodings, and the final
`.reshape([1, context.dimensions])` throws (`none`) unless the vector has
exactly `context.dimensions` entries. -/
def encodeUser (user : User) (context : Context) : Option (List ℚ) :=
  if user.purchases.length ≠ 0 then
    match optMap (fun purchase => encodeProduct purchase context) user.purchases with
    | some vecs =>
      match stackMean vecs with
      | some m => if m.length = context.dimensions then some m else none
      | none => none
    | none => none
  else none

/-- The nested `forEach` of both `createTrainingData` variants over a given
user list: one `(input row, label)` pair per (user, product) pair, where the
input row is `[...userVector, ...productVector]` and the label is
`user.purchases.some(purchase => purchase.name === product.name ? 1 : 0)`
(a JS boolean: the callback's `1`/`0` only feeds `.some`'s truthiness test). -/
def trainingRows (context : Context) (users : List User) :
    Option (List (List ℚ × Bool)) :=
  (optMap (fun user =>
    match encodeUser user context with
    | none => none
    | some userVector =>
      optMap (fun product =>
        match encodeProduct product context with
        | none => none
        | some productVector =>
          some (userVector ++ productVector,
            user.purchases.any (fun purchase => purchase.name == product.name)))
        context.products)
    users).map List.flatten

/-- `tf.tensor2d(rows)` with inferred shape: throws (`none`) on an empty or
ragged list of rows. -/
def tensor2dOfRows (rows : List (List ℚ)) : Option (List (List ℚ)) :=
  match rows with
  | [] => none
  | r :: rs => if rs.all (fun s => s.length = r.length) then some (r :: rs) else none

/-- The record returned by `createTrainingData`: `xs` is the training
matrix, `ys` the label column (`tf.tensor2d(labels, [labels.length, 1])`
converts the JS booleans to `1`/`0`), `inputDimension` its stated width. -/
structure TrainingData where
  xs : List (List ℚ)
  ys : List ℚ
  inputDimension : Nat
deriving DecidableEq, Repr

/-- `createTrainingData(context)` of the real-training worker: users are
first restricted by `.filter((user) => user.purchases.length)`. -/
def createTrainingData (context : Context) : Option TrainingData :=
  match trainingRows context
      (context.users.filter (fun user => user.purchases.length != 0)) with
  | none => none
  | some rows =>
    match tensor2dOfRows (rows.map Prod.fst) with
    | none => none
    | some xs =>
      some { xs := xs
             ys := rows.map (fun row => if row.2 then (1 : ℚ) else 0)
             inputDimension := context.dimensions * 2 }

/-- `createTrainingData(context)` of the stub worker: identical except that
it iterates over ALL of `context.users` with no filter, so
`encodeUser(user, context).dataSync()` throws on a user without purchases. -/
def createTrainingDataStub (context : Context) : Option TrainingData :=
  match trainingRows context context.users with
  | none => none
  | some rows =>
    match tensor2dOfRows (rows.map Prod.fst) with
    | none => none
    | some xs =>
      some { xs := xs
             ys := rows.map (fun row => if row.2 then (1 : ℚ) else 0)
             inputDimension := context.dimensions * 2 }

/-!
## The `JsNum` model

`makeContext` performs `Math.min(...list)` / `Math.max(...list)` on possibly
empty spreads and IEEE-754 arithmetic on the results. To settle how the code
behaves on EMPTY collections we model JS numbers as rationals extended with
`Infinity`, `-Infinity` and `NaN`, with the exact ECMAScript semantics of the
operations `makeContext` uses. No operation below can throw, mirroring the
fact that JS numeric arithmetic never throws.
-/

/-- A JavaScript number: a finite rational, an infinity, or `NaN`. -/
inductive JsNum : Type where
  | fin : ℚ → JsNum
  | posInf : JsNum
  | negInf : JsNum
  | nan : JsNum
deriving DecidableEq, Repr

namespace JsNum

/-- JS truthiness of a number: `0` and `NaN` are falsy. -/
def truthy (a : JsNum) : Bool := a != fin 0 && a != nan

/-- Binary `Math.min`: `NaN` absorbs, otherwise the smaller value. -/
def jsMin2 : JsNum → JsNum → JsNum
  | nan, _ => nan
  | _, nan => nan
  | posInf, b => b
  | a, posInf => a
  | negInf, _ => negInf
  | _, negInf => negInf
  | fin a, fin b => fin (min a b)

/-- Binary `Math.max`. -/
def jsMax2 : JsNum → JsNum → JsNum
  | nan, _ => nan
  | _, nan => nan
  | negInf, b => b
  | a, negInf => a
  | posInf, _ => posInf
  | _, posInf => posInf
  | fin a, fin b => fin (max a b)

/-- `Math.min(...l)`: the fold over the arguments starting from
`Math.min()`'s result `Infinity` — the empty spread yields `Infinity`,
never an error. -/
def jsMinSpread (l : List JsNum) : JsNum := l.foldl jsMin2 posInf

/-- `Math.max(...l)`: empty spread yields `-Infinity`. -/
def jsMaxSpread (l : List JsNum) : JsNum := l.foldl jsMax2 negInf

/-- IEEE addition: `NaN` absorbs, `Infinity + -Infinity = NaN`. -/
def jsAdd : JsNum → JsNum → JsNum
  | nan, _ => nan
  | _, nan => nan
  | posInf, negInf => nan
  | negInf, posInf => nan
  | posInf, _ => posInf
  | _, posInf => posInf
  | negInf, _ => negInf
  | _, negInf => negInf
  | fin a, fin b => fin (a + b)

/-- IEEE negation. -/
def jsNeg : JsNum → JsNum
  | nan => nan
  | posInf => negInf
  | negInf => posInf
  | fin a => fin (-a)

/-- IEEE subtraction. -/
def jsSub (a b : JsNum) : JsNum := jsAdd a (jsNeg b)

/-- IEEE division (signed zeros are not distinguished: the embedding maps
both to `fin 0`, which only coarsens the sign of an infinite quotient). -/
def jsDiv : JsNum → JsNum → JsNum
  | nan, _ => nan
  | _, nan => nan
  | posInf, posInf => nan
  | posInf, negInf => nan
  | negInf, posInf => nan
  | negInf, negInf => nan
  | posInf, fin b => if b < 0 then negInf else posInf
  | negInf, fin b => if b < 0 then posInf else negInf
  | fin _, posInf => fin 0
  | fin _, negInf => fin 0
  | fin a, fin b =>
    if b = 0 then (if a = 0 then nan else if 0 < a then posInf else negInf)
    else fin (a / b)

/-- JS `a || b` on numbers: falsy (`0`, `NaN`) selects `b`. -/
def jsOrNum (a b : JsNum) : JsNum := if truthy a then a else b

/-- `normalize` over JS numbers:
`(value - min) / (max - min || 1)`. -/
def normalizeJs (value lo hi : JsNum) : JsNum :=
  jsDiv (jsSub value lo) (jsOrNum (jsSub hi lo) (fin 1))

end JsNum

/-- `(obj[k] || 0) + v` over `JsNum` (an absent key reads as `undefined`,
which is falsy). -/
def bumpEntryJs (m : List (String × JsNum)) (k : String) (v : JsNum) :
    List (String × JsNum) :=
  (k, JsNum.jsAdd (JsNum.jsOrNum ((List.lookup k m).getD (JsNum.fin 0)) (JsNum.fin 0)) v) :: m

/-- The `ageSums` / `ageCounts` accumulation over `JsNum`. -/
def ageTallyJs (users : List User) :
    List (String × JsNum) × List (String × JsNum) :=
  users.foldl
    (fun acc user =>
      user.purchases.foldl
        (fun acc purchase =>
          (bumpEntryJs acc.1 purchase.name (JsNum.fin user.age),
           bumpEntryJs acc.2 purchase.name (JsNum.fin 1)))
        acc)
    ([], [])

/-- `ageCounts[product.name] ? ageSums[...] / ageCounts[...] : avgAge` over
`JsNum`: an absent key used in arithmetic is `undefined`, i.e. `NaN`. -/
def productAvgValueJs (sums counts : List (String × JsNum)) (avgAge : JsNum)
    (name : String) : JsNum :=
  if JsNum.truthy ((List.lookup name counts).getD (JsNum.fin 0)) then
    JsNum.jsDiv ((List.lookup name sums).getD JsNum.nan)
      ((List.lookup name counts).getD JsNum.nan)
  else avgAge

/-- The context record over JS numbers. -/
structure ContextJs where
  products : List Product
  users : List User
  colorsIndex : List (String × Nat)
  categoriesIndex : List (String × Nat)
  minAge : JsNum
  maxAge : JsNum
  minPrice : JsNum
  maxPrice : JsNum
  productAvgAgeNorm : List (String × JsNum)
  numCategories : Nat
  numColors : Nat
  dimensions : Nat
deriving DecidableEq, Repr

/-- `makeContext(products, users)` over the full JS-number model: faithful
for ALL inputs, including empty collections, where the `Math.min` /
`Math.max` spreads produce infinities rather than raising. Every operation
in the body is total, exactly as in JS. -/
def makeContextJs (products : List Product) (users : List User) : ContextJs :=
  let ages := users.map (fun user => JsNum.fin user.age)
  let prices := products.map (fun product => JsNum.fin product.price)
  let minAge := JsNum.jsMinSpread ages
  let maxAge := JsNum.jsMaxSpread ages
  let minPrice := JsNum.jsMinSpread prices
  let maxPrice := JsNum.jsMaxSpread prices
  let colors := setDedup (products.map (fun product => product.color))
  let categories := setDedup (products.map (fun product => product.category))
  let colorsIndex := colors.enum.map (fun e => (e.2, e.1))
  let categoriesIndex := categories.enum.map (fun e => (e.2, e.1))
  let avgAge := JsNum.jsDiv (JsNum.jsAdd minAge maxAge) (JsNum.fin 2)
  let tally := ageTallyJs users
  let productAvgAgeNorm := products.map (fun product =>
    (product.name,
      JsNum.normalizeJs (productAvgValueJs tally.1 tally.2 avgAge product.name)
        minAge maxAge))
  { products := products
    users := users
    colorsIndex := colorsIndex
    categoriesIndex := categoriesIndex
    minAge := minAge
    maxAge := maxAge
    minPrice := minPrice
    maxPrice := maxPrice
    productAvgAgeNorm := productAvgAgeNorm
    numCategories := categories.length
    numColors := colors.length
    dimensions := 2 + categories.length + colors.length }

/-!
## Helper lemmas
-/

theorem optMap_length {α β : Type} {f : α → Option β} :
    ∀ {l : List α} {r : List β}, optMap f l = some r → r.length = l.length := by
  intro l
  induction l with
  | nil =>
    intro r h
    simp only [optMap, Option.some.injEq] at h
    subst h
    rfl
  | cons x xs ih =>
    intro r h
    simp only [optMap] at h
    cases hx : f x with
    | none => rw [hx] at h; exact absurd h (by simp)
    | some y =>
      cases hxs : optMap f xs with
      | none => rw [hx, hxs] at h; exact absurd h (by simp)
      | some ys =>
        rw [hx, hxs] at h
        simp only [Option.some.injEq] at h
        subst h
        simp [ih hxs]

theorem optMap_none {α β : Type} {f : α → Option β} {l : List α} {a : α}
    (ha : a ∈ l) (hfa : f a = none) : optMap f l = none := by
  induction l with
  | nil => cases ha
  | cons x xs ih =>
    rcases List.mem_cons.mp ha with h | h
    · subst h
      simp only [optMap, hfa]
    · simp only [optMap, ih h]
      cases f x <;> rfl

theorem optMap_mem {α β : Type} {f : α → Option β} :
    ∀ {l : List α} {r : List β}, optMap f l = some r → ∀ {a : α}, a ∈ l →
      ∃ b, f a = some b ∧ b ∈ r := by
  intro l
  induction l with
  | nil => intro r _ a ha; cases ha
  | cons x xs ih =>
    intro r h a ha
    simp only [optMap] at h
    cases hx : f x with
    | none => rw [hx] at h; exact absurd h (by simp)
    | some y =>
      cases hxs : optMap f xs with
      | none => rw [hx, hxs] at h; exact absurd h (by simp)
      | some ys =>
        rw [hx, hxs] at h
        simp only [Option.some.injEq] at h
        subst h
        rcases List.mem_cons.mp ha with h | h
        · subst h; exact ⟨y, hx, List.mem_cons_self _ _⟩
        · rcases ih hxs h with ⟨b, hb, hbr⟩
          exact ⟨b, hb, List.mem_cons_of_mem _ hbr⟩

theorem optMap_mem_rev {α β : Type} {f : α → Option β} :
    ∀ {l : List α} {r : List β}, optMap f l = some r → ∀ {b : β}, b ∈ r →
      ∃ a ∈ l, f a = some b := by
  intro l
  induction l with
  | nil =>
    intro r h b hb
    simp only [optMap, Option.some.injEq] at h
    subst h
    cases hb
  | cons x xs ih =>
    intro r h b hb
    simp only [optMap] at h
    cases hx : f x with
    | none => rw [hx] at h; exact absurd h (by simp)
    | some y =>
      cases hxs : optMap f xs with
      | none => rw [hx, hxs] at h; exact absurd h (by simp)
      | some ys =>
        rw [hx, hxs] at h
        simp only [Option.some.injEq] at h
        subst h
        rcases List.mem_cons.mp hb with h | h
        · subst h; exact ⟨x, List.mem_cons_self _ _, hx⟩
        · rcases ih hxs h with ⟨a, ha, hfa⟩
          exact ⟨a, List.mem_cons_of_mem _ ha, hfa⟩

theorem flatten_length_const {α : Type} {k : Nat} :
    ∀ {ls : List (List α)}, (∀ l ∈ ls, l.length = k) →
      ls.flatten.length = ls.length * k := by
  intro ls
  induction ls with
  | nil => intro _; simp
  | cons l ls ih =>
    intro h
    simp only [List.flatten_cons, List.length_append, List.length_cons]
    rw [h l (List.mem_cons_self _ _), ih (fun l' hl' => h l' (List.mem_cons_of_mem _ hl'))]
    ring

theorem tensor2dOfRows_eq {rows r : List (List ℚ)}
    (h : tensor2dOfRows rows = some r) : r = rows := by
  cases rows with
  | nil => exact absurd h (by simp [tensor2dOfRows])
  | cons x xs =>
    simp only [tensor2dOfRows] at h
    split at h
    · exact (Option.some.injEq _ _ ▸ h).symm ▸ rfl
    · exact absurd h (by simp)

theorem trainingRows_inner {context : Context} {user : User} {l : List (List ℚ × Bool)}
    (h : (match encodeUser user context with
          | none => none
          | some userVector =>
            optMap (fun product =>
              match encodeProduct product context with
              | none => none
              | some productVector =>
                some (userVector ++ productVector,
                  user.purchases.any (fun purchase => purchase.name == product.name)))
              context.products) = some l) :
    ∃ userVector, encodeUser user context = some userVector ∧
      optMap (fun product =>
        match encodeProduct product context with
        | none => none
        | some productVector =>
          some (userVector ++ productVector,
            user.purchases.any (fun purchase => purchase.name == product.name)))
        context.products = some l := by
  cases hu : encodeUser user context with
  | none => rw [hu] at h; exact absurd h (by simp)
  | some userVector => rw [hu] at h; exact ⟨userVector, rfl, h⟩

theorem trainingRows_length {context : Context} {users : List User}
    {rows : List (List ℚ × Bool)} (h : trainingRows context users = some rows) :
    rows.length = users.length * context.products.length := by
  simp only [trainingRows] at h
  rcases Option.map_eq_some'.mp h with ⟨rss, hrss, hflat⟩
  subst hflat
  rw [flatten_length_const (k := context.products.length), optMap_length hrss]
  intro l hl
  rcases optMap_mem_rev hrss hl with ⟨user, _, hfu⟩
  rcases trainingRows_inner hfu with ⟨userVector, _, hinner⟩
  exact optMap_length hinner

theorem createTrainingData_spec {context : Context} {td : TrainingData}
    (h : createTrainingData context = some td) :
    ∃ rows, trainingRows context
        (context.users.filter (fun user => user.purchases.length != 0)) = some rows ∧
      td.xs = rows.map Prod.fst ∧
      td.ys = rows.map (fun row => if row.2 then (1 : ℚ) else 0) ∧
      td.inputDimension = context.dimensions * 2 := by
  simp only [createTrainingData] at h
  split at h
  · exact absurd h (by simp)
  · rename_i rows hrows
    split at h
    · exact absurd h (by simp)
    · rename_i xs hxs
      simp only [Option.some.injEq] at h
      refine ⟨rows, hrows, ?_, by rw [← h], by rw [← h]⟩
      rw [← h]
      exact tensor2dOfRows_eq hxs

theorem createTrainingDataStub_spec {context : Context} {td : TrainingData}
    (h : createTrainingDataStub context = some td) :
    ∃ rows, trainingRows context context.users = some rows ∧
      td.xs = rows.map Prod.fst ∧
      td.ys = rows.map (fun row => if row.2 then (1 : ℚ) else 0) ∧
      td.inputDimension = context.dimensions * 2 := by
  simp only [createTrainingDataStub] at h
  split at h
  · exact absurd h (by simp)
  · rename_i rows hrows
    split at h
    · exact absurd h (by simp)
    · rename_i xs hxs
      simp only [Option.some.injEq] at h
      refine ⟨rows, hrows, ?_, by rw [← h], by rw [← h]⟩
      rw [← h]
      exact tensor2dOfRows_eq hxs

theorem optMap_some {α β : Type} {f : α → Option β} :
    ∀ {l : List α}, (∀ a ∈ l, ∃ b, f a = some b) → ∃ r, optMap f l = some r := by
  intro l
  induction l with
  | nil => intro _; exact ⟨[], rfl⟩
  | cons x xs ih =>
    intro h
    rcases h x (List.mem_cons_self _ _) with ⟨y, hy⟩
    rcases ih (fun a ha => h a (List.mem_cons_of_mem _ ha)) with ⟨ys, hys⟩
    exact ⟨y :: ys, by simp only [optMap, hy, hys]⟩

theorem encodeProduct_length {product : Product} {context : Context} {v : List ℚ}
    (h : encodeProduct product context = some v) :
    v.length = 2 + context.numCategories + context.numColors := by
  simp only [encodeProduct] at h
  split at h
  · simp only [Option.some.injEq] at h
    subst h
    simp only [List.length_append, List.length_cons, List.length_nil,
      oneHotWeighted, oneHot, List.length_map, List.length_range]
  · exact absurd h (by simp)

theorem encodeProduct_some {product : Product} {context : Context}
    (hcat : (List.lookup product.category context.categoriesIndex).isSome)
    (hcol : (List.lookup product.color context.colorsIndex).isSome) :
    ∃ v, encodeProduct product context = some v := by
  rcases Option.isSome_iff_exists.mp hcat with ⟨catIdx, hcat'⟩
  rcases Option.isSome_iff_exists.mp hcol with ⟨colIdx, hcol'⟩
  refine Option.isSome_iff_exists.mp ?_
  simp [encodeProduct, hcat', hcol']

theorem stackMean_some {rows : List (List ℚ)} {d : Nat} (hne : rows ≠ [])
    (hall : ∀ r ∈ rows, r.length = d) :
    ∃ m, stackMean rows = some m ∧ m.length = d := by
  cases rows with
  | nil => exact absurd rfl hne
  | cons r rs =>
    have hr : r.length = d := hall r (List.mem_cons_self _ _)
    have hcond : rs.all (fun s => decide (s.length = r.length)) = true := by
      simp only [List.all_eq_true, decide_eq_true_eq]
      intro s hs
      rw [hall s (List.mem_cons_of_mem _ hs), hr]
    refine ⟨(List.range r.length).map (fun i =>
        ((r :: rs).map (fun s => s.getD i 0)).sum / (r :: rs).length), ?_, ?_⟩
    · simp [stackMean, hcond]
    · simp [hr]

theorem encodeUser_some {user : User} {context : Context}
    (hdim : context.dimensions = 2 + context.numCategories + context.numColors)
    (hne : user.purchases ≠ [])
    (henc : ∀ purchase ∈ user.purchases, ∃ v, encodeProduct purchase context = some v) :
    ∃ w, encodeUser user context = some w ∧ w.length = context.dimensions := by
  rcases optMap_some (f := fun purchase => encodeProduct purchase context) henc
    with ⟨vecs, hvecs⟩
  have hvne : vecs ≠ [] := by
    intro hnil
    have := optMap_length hvecs
    rw [hnil] at this
    exact hne (List.length_eq_zero.mp this.symm)
  have hvall : ∀ v ∈ vecs, v.length = context.dimensions := by
    intro v hv
    rcases optMap_mem_rev hvecs hv with ⟨purchase, _, hfp⟩
    rw [hdim]
    exact encodeProduct_length hfp
  rcases stackMean_some hvne hvall with ⟨m, hm, hmlen⟩
  refine ⟨m, ?_, hmlen⟩
  have hlen0 : user.purchases.length ≠ 0 := fun h0 => hne (List.length_eq_zero.mp h0)
  simp only [encodeUser, if_pos hlen0, hvecs, hm, if_pos hmlen]

theorem trainingRows_mem {context : Context} {users : List User}
    {rows : List (List ℚ × Bool)} (h : trainingRows context users = some rows)
    {user : User} (hu : user ∈ users) {product : Product}
    (hp : product ∈ context.products) :
    ∃ userVector productVector,
      encodeUser user context = some userVector ∧
      encodeProduct product context = some productVector ∧
      (userVector ++ productVector,
        user.purchases.any (fun purchase => purchase.name == product.name)) ∈ rows := by
  simp only [trainingRows] at h
  rcases Option.map_eq_some'.mp h with ⟨rss, hrss, hflat⟩
  subst hflat
  rcases optMap_mem hrss hu with ⟨l, hfl, hlr⟩
  rcases trainingRows_inner hfl with ⟨userVector, huser, hinner⟩
  rcases optMap_mem hinner hp with ⟨pair, hpair, hpl⟩
  cases hprod : encodeProduct product context with
  | none => rw [hprod] at hpair; exact absurd hpair (by simp)
  | some productVector =>
    rw [hprod] at hpair
    simp only [Option.some.injEq] at hpair
    subst hpair
    exact ⟨userVector, productVector, huser, rfl,
      List.mem_flatten.mpr ⟨l, hlr, hpl⟩⟩

/-!
## Lemmas about the `JsNum` model
-/

theorem makeContextJs_minAge (products : List Product) (users : List User) :
    (makeContextJs products users).minAge =
      JsNum.jsMinSpread (users.map (fun user => JsNum.fin user.age)) := rfl

theorem makeContextJs_maxAge (products : List Product) (users : List User) :
    (makeContextJs products users).maxAge =
      JsNum.jsMaxSpread (users.map (fun user => JsNum.fin user.age)) := rfl

theorem makeContextJs_minPrice (products : List Product) (users : List User) :
    (makeContextJs products users).minPrice =
      JsNum.jsMinSpread (products.map (fun product => JsNum.fin product.price)) := rfl

theorem makeContextJs_maxPrice (products : List Product) (users : List User) :
    (makeContextJs products users).maxPrice =
      JsNum.jsMaxSpread (products.map (fun product => JsNum.fin product.price)) := rfl

theorem makeContextJs_avgNorm (products : List Product) (users : List User) :
    (makeContextJs products users).productAvgAgeNorm =
      products.map (fun product =>
        (product.name,
          JsNum.normalizeJs
            (productAvgValueJs (ageTallyJs users).1 (ageTallyJs users).2
              (JsNum.jsDiv
                (JsNum.jsAdd
                  (JsNum.jsMinSpread (users.map (fun user => JsNum.fin user.age)))
                  (JsNum.jsMaxSpread (users.map (fun user => JsNum.fin user.age))))
                (JsNum.fin 2))
              product.name)
            (JsNum.jsMinSpread (users.map (fun user => JsNum.fin user.age)))
            (JsNum.jsMaxSpread (users.map (fun user => JsNum.fin user.age))))) := rfl

theorem jsAdd_fin (a b : ℚ) : JsNum.jsAdd (JsNum.fin a) (JsNum.fin b) = JsNum.fin (a + b) := rfl

theorem jsSub_fin (a b : ℚ) :
    JsNum.jsSub (JsNum.fin a) (JsNum.fin b) = JsNum.fin (a - b) := by
  simp [JsNum.jsSub, JsNum.jsNeg, jsAdd_fin, sub_eq_add_neg]

theorem jsDiv_fin {b : ℚ} (a : ℚ) (hb : b ≠ 0) :
    JsNum.jsDiv (JsNum.fin a) (JsNum.fin b) = JsNum.fin (a / b) := by
  simp [JsNum.jsDiv, hb]

theorem jsOrNum_fin (a b : ℚ) :
    ∃ c, JsNum.jsOrNum (JsNum.fin a) (JsNum.fin b) = JsNum.fin c := by
  unfold JsNum.jsOrNum
  split
  · exact ⟨a, rfl⟩
  · exact ⟨b, rfl⟩

theorem jsMin2_posInf (b : JsNum) : JsNum.jsMin2 JsNum.posInf b = b := by
  cases b <;> rfl

theorem jsMax2_negInf (b : JsNum) : JsNum.jsMax2 JsNum.negInf b = b := by
  cases b <;> rfl

theorem foldl_jsMin2_fin :
    ∀ {l : List JsNum}, (∀ x ∈ l, ∃ q, x = JsNum.fin q) →
      ∀ q0 : ℚ, ∃ q, l.foldl JsNum.jsMin2 (JsNum.fin q0) = JsNum.fin q := by
  intro l
  induction l with
  | nil => intro _ q0; exact ⟨q0, rfl⟩
  | cons x xs ih =>
    intro h q0
    rcases h x (List.mem_cons_self _ _) with ⟨qx, rfl⟩
    exact ih (fun a ha => h a (List.mem_cons_of_mem _ ha)) (min q0 qx)

theorem foldl_jsMax2_fin :
    ∀ {l : List JsNum}, (∀ x ∈ l, ∃ q, x = JsNum.fin q) →
      ∀ q0 : ℚ, ∃ q, l.foldl JsNum.jsMax2 (JsNum.fin q0) = JsNum.fin q := by
  intro l
  induction l with
  | nil => intro _ q0; exact ⟨q0, rfl⟩
  | cons x xs ih =>
    intro h q0
    rcases h x (List.mem_cons_self _ _) with ⟨qx, rfl⟩
    exact ih (fun a ha => h a (List.mem_cons_of_mem _ ha)) (max q0 qx)

theorem jsMinSpread_fin {l : List JsNum} (hfin : ∀ x ∈ l, ∃ q, x = JsNum.fin q)
    (hne : l ≠ []) : ∃ q, JsNum.jsMinSpread l = JsNum.fin q := by
  cases l with
  | nil => exact absurd rfl hne
  | cons x xs =>
    rcases hfin x (List.mem_cons_self _ _) with ⟨qx, rfl⟩
    show ∃ q, (JsNum.fin qx :: xs).foldl JsNum.jsMin2 JsNum.posInf = JsNum.fin q
    rw [List.foldl_cons, jsMin2_posInf]
    exact foldl_jsMin2_fin (fun a ha => hfin a (List.mem_cons_of_mem _ ha)) qx

theorem jsMaxSpread_fin {l : List JsNum} (hfin : ∀ x ∈ l, ∃ q, x = JsNum.fin q)
    (hne : l ≠ []) : ∃ q, JsNum.jsMaxSpread l = JsNum.fin q := by
  cases l with
  | nil => exact absurd rfl hne
  | cons x xs =>
    rcases hfin x (List.mem_cons_self _ _) with ⟨qx, rfl⟩
    show ∃ q, (JsNum.fin qx :: xs).foldl JsNum.jsMax2 JsNum.negInf = JsNum.fin q
    rw [List.foldl_cons, jsMax2_negInf]
    exact foldl_jsMax2_fin (fun a ha => hfin a (List.mem_cons_of_mem _ ha)) qx

/-- Every stored value of an association list is a finite number. -/
def entriesFin (m : List (String × JsNum)) : Prop :=
  ∀ e ∈ m, ∃ q, e.2 = JsNum.fin q

/-- Every key present in `counts` is present in `sums` (the two objects are
updated in lockstep by the tally loop). -/
def keysAligned (sums counts : List (String × JsNum)) : Prop :=
  ∀ k, (List.lookup k counts).isSome = true → (List.lookup k sums).isSome = true

theorem lookup_entriesFin :
    ∀ {m : List (String × JsNum)}, entriesFin m → ∀ {k : String} {v : JsNum},
      List.lookup k m = some v → ∃ q, v = JsNum.fin q := by
  intro m
  induction m with
  | nil => intro _ k v h; simp [List.lookup] at h
  | cons e rest ih =>
    intro hm k v h
    obtain ⟨a, b⟩ := e
    by_cases hk : (k == a) = true
    · simp only [List.lookup, hk, Option.some.injEq] at h
      subst h
      exact hm (a, b) (List.mem_cons_self _ _)
    · rw [Bool.not_eq_true] at hk
      simp only [List.lookup, hk] at h
      exact ih (fun e he => hm e (List.mem_cons_of_mem _ he)) h

theorem bumpEntryJs_entriesFin {m : List (String × JsNum)} {k : String} {q : ℚ}
    (hm : entriesFin m) : entriesFin (bumpEntryJs m k (JsNum.fin q)) := by
  intro e he
  rcases List.mem_cons.mp he with he | he
  · subst he
    have hx : ∃ a, (List.lookup k m).getD (JsNum.fin 0) = JsNum.fin a := by
      cases hl : List.lookup k m with
      | none => exact ⟨0, rfl⟩
      | some v =>
        rcases lookup_entriesFin hm hl with ⟨qv, rfl⟩
        exact ⟨qv, rfl⟩
    rcases hx with ⟨a, ha⟩
    show ∃ q', (JsNum.jsAdd (JsNum.jsOrNum ((List.lookup k m).getD (JsNum.fin 0))
      (JsNum.fin 0)) (JsNum.fin q)) = JsNum.fin q'
    rw [ha]
    rcases jsOrNum_fin a 0 with ⟨c, hc⟩
    rw [hc, jsAdd_fin]
    exact ⟨c + q, rfl⟩
  · exact hm e he

theorem bumpEntryJs_keysAligned {sums counts : List (String × JsNum)}
    {k : String} {vs vc : JsNum} (h : keysAligned sums counts) :
    keysAligned (bumpEntryJs sums k vs) (bumpEntryJs counts k vc) := by
  intro k' hk'
  by_cases hkk : (k' == k) = true
  · simp [bumpEntryJs, List.lookup, hkk]
  · rw [Bool.not_eq_true] at hkk
    simp only [bumpEntryJs, List.lookup, hkk] at hk' ⊢
    exact h k' hk'

/-- The invariant carried through the `ageSums` / `ageCounts` tally. -/
def tallyInv (acc : List (String × JsNum) × List (String × JsNum)) : Prop :=
  entriesFin acc.1 ∧ entriesFin acc.2 ∧ keysAligned acc.1 acc.2

theorem ageTallyJs_inv (users : List User) : tallyInv (ageTallyJs users) := by
  unfold ageTallyJs
  refine List.foldlRecOn users _ ([], []) ⟨?_, ?_, ?_⟩ ?_
  · intro e he; cases he
  · intro e he; cases he
  · intro k hk; simp [List.lookup] at hk
  · intro acc hacc user _
    refine List.foldlRecOn user.purchases _ acc hacc ?_
    intro acc' hacc' purchase _
    exact ⟨bumpEntryJs_entriesFin hacc'.1, bumpEntryJs_entriesFin hacc'.2.1,
      bumpEntryJs_keysAligned hacc'.2.2⟩

theorem productAvgValueJs_fin {sums counts : List (String × JsNum)}
    {avgAge : JsNum} (hs : entriesFin sums) (hc : entriesFin counts)
    (hal : keysAligned sums counts) (havg : ∃ q, avgAge = JsNum.fin q)
    (name : String) : ∃ q, productAvgValueJs sums counts avgAge name = JsNum.fin q := by
  unfold productAvgValueJs
  split
  · rename_i htruthy
    cases hlc : List.lookup name counts with
    | none =>
      rw [hlc] at htruthy
      simp [JsNum.truthy] at htruthy
    | some c =>
      rcases lookup_entriesFin hc hlc with ⟨qc, rfl⟩
      rw [hlc] at htruthy
      have hqc : qc ≠ 0 := by
        intro h0
        subst h0
        simp [JsNum.truthy] at htruthy
      have hss : (List.lookup name sums).isSome = true :=
        hal name (by rw [hlc]; rfl)
      rcases Option.isSome_iff_exists.mp hss with ⟨sv, hsv⟩
      rcases lookup_entriesFin hs hsv with ⟨qs, rfl⟩
      rw [hsv]
      simp only [Option.getD_some]
      rw [jsDiv_fin qs hqc]
      exact ⟨qs / qc, rfl⟩
  · exact havg

theorem normalizeJs_fin (v lo hi : ℚ) :
    JsNum.normalizeJs (JsNum.fin v) (JsNum.fin lo) (JsNum.fin hi) =
      JsNum.fin (normalize v lo hi) := by
  unfold JsNum.normalizeJs normalize jsOr
  rw [jsSub_fin v lo, jsSub_fin hi lo]
  by_cases hd : hi - lo = 0
  · rw [hd]
    have h1 : JsNum.jsOrNum (JsNum.fin 0) (JsNum.fin 1) = JsNum.fin 1 := rfl
    rw [h1, jsDiv_fin _ one_ne_zero, if_pos rfl]
  · have ht : JsNum.truthy (JsNum.fin (hi - lo)) = true := by
      simp [JsNum.truthy, hd]
    have h2 : JsNum.jsOrNum (JsNum.fin (hi - lo)) (JsNum.fin 1) = JsNum.fin (hi - lo) := by
      simp [JsNum.jsOrNum, ht]
    rw [h2, jsDiv_fin _ hd, if_neg hd]

/-!
## Concrete example records (used by witnesses and counterexamples)
-/

/-- A catalog product. -/
def pA : Product := { id := 1, name := "a", category := "c", color := "x", price := 4 }

/-- The same product data under a different `id` (the `id` field is never
read by the encoder). -/
def pAalias : Product := { id := 99, name := "a", category := "c", color := "x", price := 4 }

/-- A user who purchased `pA`. -/
def uBuyer : User := { id := 3, name := "u", age := 30, purchases := [pA] }

/-- A user with an empty purchase list. -/
def uIdle : User := { id := 4, name := "v", age := 40, purchases := [] }

/-- Context over one product and two users, one of whom has no purchases. -/
def exCtx : Context := makeContext [pA] [uBuyer, uIdle]

/-- Context over one product and the single purchasing user. -/
def exCtxAll : Context := makeContext [pA] [uBuyer]

theorem headD_mem {α : Type} {l : List α} (d : α) (h : l ≠ []) : l.headD d ∈ l := by
  cases l with
  | nil => exact absurd rfl h
  | cons x xs => exact List.mem_cons_self _ _

/-!
## Claims
-/

/-- C1 (amended): the real-training worker's `createTrainingData` produces
one row per (user with at least one purchase, product) pair — its row count
is `(users with non-empty purchases) × products`, not `users × products` —
while the stub worker's variant, whenever it completes, produces
`users × products` rows (it only completes when every user has a non-empty
purchase list, since `encodeUser(user, ctx).dataSync()` throws otherwise). -/
theorem createTrainingData_row_count (context : Context) :
    (∀ td, createTrainingData context = some td →
      td.xs.length =
        (context.users.filter (fun user => user.purchases.length != 0)).length *
          context.products.length) ∧
    (∀ td, createTrainingDataStub context = some td →
      td.xs.length = context.users.length * context.products.length) := by
  constructor
  · intro td h
    rcases createTrainingData_spec h with ⟨rows, hrows, hxs, -, -⟩
    rw [hxs, List.length_map, trainingRows_length hrows]
  · intro td h
    rcases createTrainingDataStub_spec h with ⟨rows, hrows, hxs, -, -⟩
    rw [hxs, List.length_map, trainingRows_length hrows]

/-- C1 counterexample: with two users (one of whom has no purchases) and one
product, the real-training worker produces 1 row, not
`users × products = 2`; the claim as stated fails on this input. -/
theorem createTrainingData_row_count_cex :
    (createTrainingData exCtx).map (fun td => td.xs.length) = some 1 ∧
    exCtx.users.length * exCtx.products.length = 2 := by
  constructor
  · decide
  · decide

/-- C1 witness: the amended row-count theorem applied at concrete contexts. -/
theorem createTrainingData_row_count_witness :
    (createTrainingData exCtx).map (fun td => td.xs.length) =
      some ((exCtx.users.filter (fun user => user.purchases.length != 0)).length *
        exCtx.products.length) ∧
    (createTrainingDataStub exCtxAll).map (fun td => td.xs.length) =
      some (exCtxAll.users.length * exCtxAll.products.length) := by
  constructor
  · cases h : createTrainingData exCtx with
    | none => exact absurd h (by decide)
    | some td =>
      simp only [Option.map_some']
      rw [(createTrainingData_row_count exCtx).1 td h]
  · cases h : createTrainingDataStub exCtxAll with
    | none => exact absurd h (by decide)
    | some td =>
      simp only [Option.map_some']
      rw [(createTrainingData_row_count exCtxAll).2 td h]

/-- C2 (amended): for `min ≤ value ≤ max`, `normalize(value, min, max)` lies
in `[0,1]` and `normalize(min, min, max) = 0`; `normalize(max, min, max) = 1`
holds whenever `min < max`, but when `min = max` the guarded denominator is
`1` and every value in range (including `max`) maps to `0`, not `1`. -/
theorem normalize_unit_interval (value lo hi : ℚ) (h1 : lo ≤ value) (h2 : value ≤ hi) :
    (0 ≤ normalize value lo hi ∧ normalize value lo hi ≤ 1) ∧
    normalize lo lo hi = 0 ∧
    (lo < hi → normalize hi lo hi = 1) ∧
    (lo = hi → normalize value lo hi = 0) := by
  simp only [normalize, jsOr]
  by_cases hd : hi - lo = 0
  · have hhi : hi = lo := by linarith
    have hvl : value = lo := by linarith
    subst hhi
    subst hvl
    norm_num
  · rw [if_neg hd]
    have hpos : 0 < hi - lo := lt_of_le_of_ne (by linarith) (Ne.symm hd)
    refine ⟨⟨div_nonneg (by linarith) (le_of_lt hpos), ?_⟩, by simp, fun _ => div_self hd,
      fun he => absurd (by rw [he, sub_self]) hd⟩
    rw [div_le_one hpos]
    linarith

/-- C2 counterexample: with `min = max` (here both `5`), `normalize(max, min,
max)` is `0`, not `1` as the claim asserts for that case. -/
theorem normalize_unit_interval_cex : normalize 5 5 5 ≠ 1 := by
  norm_num [normalize, jsOr]

/-- C2 witness: the amended normalization theorem applied at `value = 6`,
`min = 5`, `max = 7`. -/
theorem normalize_unit_interval_witness :
    (0 ≤ normalize 6 5 7 ∧ normalize 6 5 7 ≤ 1) ∧ normalize 5 5 7 = 0 :=
  ⟨(normalize_unit_interval 6 5 7 (by norm_num) (by norm_num)).1,
   (normalize_unit_interval 6 5 7 (by norm_num) (by norm_num)).2.1⟩

/-- C3 (amended): `makeContext` does NOT raise on empty collections:
`Math.min(...[])` and `Math.max(...[])` return `Infinity` and `-Infinity`
respectively, so the context is built with infinite sentinel bounds (and
`NaN`-propagated normalized averages) instead of failing. -/
theorem makeContext_empty_collections (products : List Product) (users : List User) :
    (products = [] →
      (makeContextJs products users).minPrice = JsNum.posInf ∧
      (makeContextJs products users).maxPrice = JsNum.negInf) ∧
    (users = [] →
      (makeContextJs products users).minAge = JsNum.posInf ∧
      (makeContextJs products users).maxAge = JsNum.negInf) := by
  constructor
  · rintro rfl
    exact ⟨rfl, rfl⟩
  · rintro rfl
    exact ⟨rfl, rfl⟩

/-- C3 counterexample: on fully empty collections `makeContext` completes
and returns this definite (degenerate) context value — it does not raise. -/
theorem makeContext_empty_collections_cex :
    makeContextJs [] [] =
      { products := [], users := [], colorsIndex := [], categoriesIndex := [],
        minAge := JsNum.posInf, maxAge := JsNum.negInf,
        minPrice := JsNum.posInf, maxPrice := JsNum.negInf,
        productAvgAgeNorm := [], numCategories := 0, numColors := 0,
        dimensions := 2 } := by
  decide

/-- C3 witness: the empty-collection theorem applied at `([], [])`. -/
theorem makeContext_empty_collections_witness :
    (makeContextJs ([] : List Product) ([] : List User)).minPrice = JsNum.posInf ∧
    (makeContextJs ([] : List Product) ([] : List User)).minAge = JsNum.posInf :=
  ⟨((makeContext_empty_collections [] []).1 rfl).1,
   ((makeContext_empty_collections [] []).2 rfl).1⟩

/-- C4: in both worker variants, every processed (user, product) pair yields
a row whose input is the concatenation of the user's mean purchase vector
(`encodeUser`) and the product's encoded vector (`encodeProduct`), labeled
`1` exactly when some purchase of the user has the same `name` as the
product, else `0` (the real-training variant processes the users with
non-empty purchase lists; the stub variant processes all users). -/
theorem trainingData_row_content (context : Context) :
    (∀ td, createTrainingData context = some td →
      ∀ user ∈ context.users.filter (fun user => user.purchases.length != 0),
        ∀ product ∈ context.products,
          ∃ userVector productVector,
            encodeUser user context = some userVector ∧
            encodeProduct product context = some productVector ∧
            (userVector ++ productVector,
              if user.purchases.any (fun purchase => purchase.name == product.name)
              then (1 : ℚ) else 0) ∈ td.xs.zip td.ys) ∧
    (∀ td, createTrainingDataStub context = some td →
      ∀ user ∈ context.users, ∀ product ∈ context.products,
        ∃ userVector productVector,
          encodeUser user context = some userVector ∧
          encodeProduct product context = some productVector ∧
          (userVector ++ productVector,
            if user.purchases.any (fun purchase => purchase.name == product.name)
            then (1 : ℚ) else 0) ∈ td.xs.zip td.ys) := by
  constructor
  · intro td h user hu product hp
    rcases createTrainingData_spec h with ⟨rows, hrows, hxs, hys, -⟩
    rcases trainingRows_mem hrows hu hp with ⟨uv, pv, huv, hpv, hmem⟩
    refine ⟨uv, pv, huv, hpv, ?_⟩
    rw [hxs, hys, List.zip_map']
    exact List.mem_map.mpr
      ⟨(uv ++ pv, user.purchases.any (fun purchase => purchase.name == product.name)),
        hmem, rfl⟩
  · intro td h user hu product hp
    rcases createTrainingDataStub_spec h with ⟨rows, hrows, hxs, hys, -⟩
    rcases trainingRows_mem hrows hu hp with ⟨uv, pv, huv, hpv, hmem⟩
    refine ⟨uv, pv, huv, hpv, ?_⟩
    rw [hxs, hys, List.zip_map']
    exact List.mem_map.mpr
      ⟨(uv ++ pv, user.purchases.any (fun purchase => purchase.name == product.name)),
        hmem, rfl⟩

/-- C4 witness: the row-content theorem applied to the concrete context
`exCtx`, its purchasing user and its single catalog product. -/
theorem trainingData_row_content_witness :
    ∃ userVector productVector,
      encodeUser uBuyer exCtx = some userVector ∧
      encodeProduct pA exCtx = some productVector ∧
      (userVector ++ productVector,
        if uBuyer.purchases.any (fun purchase => purchase.name == pA.name)
        then (1 : ℚ) else 0) ∈
        ((createTrainingData exCtx).getD { xs := [], ys := [], inputDimension := 0 }).xs.zip
          ((createTrainingData exCtx).getD { xs := [], ys := [], inputDimension := 0 }).ys := by
  cases h : createTrainingData exCtx with
  | none => exact absurd h (by decide)
  | some td =>
    simp only [Option.getD_some]
    exact (trainingData_row_content exCtx).1 td h uBuyer (by decide) pA (by decide)

/-- Auxiliary: sum of a one-position vector over `List.range`. -/
theorem sum_if_single (n index : Nat) (w : ℚ) :
    ((List.range n).map (fun i => if i = index then w else 0)).sum =
      if index < n then w else 0 := by
  induction n with
  | zero => simp
  | succ n ih =>
    rw [List.range_succ, List.map_append, List.sum_append, ih]
    by_cases h1 : index < n
    · have h2 : index < n + 1 := by omega
      have hne : n ≠ index := by omega
      simp [h1, h2, hne]
    · by_cases h2 : index = n
      · subst h2
        simp [h1]
      · have h3 : ¬ index < n + 1 := by omega
        have hne : n ≠ index := fun hh => h2 hh.symm
        simp [h1, h3, hne]

/-- Auxiliary: number of nonzero entries of a one-position vector. -/
theorem countP_if_single (n index : Nat) (w : ℚ) (hw : w ≠ 0) :
    ((List.range n).map (fun i => if i = index then w else 0)).countP
        (fun x => x != 0) =
      if index < n then 1 else 0 := by
  induction n with
  | zero => simp
  | succ n ih =>
    rw [List.range_succ, List.map_append, List.countP_append, ih]
    by_cases h1 : index < n
    · have h2 : index < n + 1 := by omega
      have hne : n ≠ index := by omega
      simp [h1, h2, hne, List.countP_cons]
    · by_cases h2 : index = n
      · subst h2
        simp [h1, List.countP_cons, hw]
      · have h3 : ¬ index < n + 1 := by omega
        have hne : n ≠ index := fun hh => h2 hh.symm
        simp [h1, h3, hne, List.countP_cons]

/-- `oneHotWeighted` written as a single map (multiplying the 0/1 one-hot
entries by the weight). -/
theorem oneHotWeighted_eq (index length : Nat) (w : ℚ) :
    oneHotWeighted index length w =
      (List.range length).map (fun i => if i = index then w else 0) := by
  unfold oneHotWeighted oneHot
  rw [List.map_map]
  refine List.map_congr_left ?_
  intro i _
  by_cases h : i = index <;> simp [h]

/-- C5 (amended): for `index < length` and a NONZERO weight, the weighted
one-hot vector has `length` entries, exactly one nonzero entry, and its
entries sum to exactly the weight. (For weight `0` — never used by the
code, whose weights are `0.4` and `0.3` — the vector is all zeros, so the
sum is still the weight but no entry is nonzero.) -/
theorem oneHotWeighted_spec (index length : Nat) (weight : ℚ)
    (hidx : index < length) (hw : weight ≠ 0) :
    (oneHotWeighted index length weight).length = length ∧
    ((oneHotWeighted index length weight).filter (fun x => x != 0)).length = 1 ∧
    (oneHotWeighted index length weight).sum = weight := by
  refine ⟨?_, ?_, ?_⟩
  · simp [oneHotWeighted, oneHot]
  · rw [← List.countP_eq_length_filter, oneHotWeighted_eq,
      countP_if_single _ _ _ hw, if_pos hidx]
  · rw [oneHotWeighted_eq, sum_if_single, if_pos hidx]

/-- C5 counterexample: at weight `0` (and valid index `0 < 2`) the vector
has NO nonzero entry, refuting "exactly one nonzero entry for every
weight". -/
theorem oneHotWeighted_spec_cex :
    ((oneHotWeighted 0 2 0).filter (fun x => x != 0)).length ≠ 1 := by
  have h : oneHotWeighted 0 2 0 = [0, 0] := by
    rw [oneHotWeighted_eq]
    norm_num [List.range_succ]
  rw [h]
  simp

/-- C5 witness: the one-hot theorem applied at index 1, length 3, weight
0.4 (the category weight). -/
theorem oneHotWeighted_spec_witness :
    (oneHotWeighted 1 3 0.4).length = 3 ∧
    ((oneHotWeighted 1 3 0.4).filter (fun x => x != 0)).length = 1 ∧
    (oneHotWeighted 1 3 0.4).sum = 0.4 :=
  oneHotWeighted_spec 1 3 0.4 (by norm_num) (by norm_num)

/-- C6: `makeContext` sets `dimensions = 2 + numCategories + numColors`, and
for any context satisfying that equation, `encodeProduct` succeeds with a
vector of exactly `context.dimensions` entries whenever the product's
category and color are in the index maps, and `encodeUser` succeeds with a
vector of exactly `context.dimensions` entries for every user with a
non-empty purchase list whose purchases' categories and colors are in the
maps — so user and product encodings always have matching length. -/
theorem encoding_dimensions :
    (∀ products users,
      (makeContext products users).dimensions =
        2 + (makeContext products users).numCategories +
          (makeContext products users).numColors) ∧
    (∀ context : Context,
      context.dimensions = 2 + context.numCategories + context.numColors →
      (∀ product : Product,
        (List.lookup product.category context.categoriesIndex).isSome →
        (List.lookup product.color context.colorsIndex).isSome →
        ∃ v, encodeProduct product context = some v ∧ v.length = context.dimensions) ∧
      (∀ user : User, user.purchases ≠ [] →
        (∀ purchase ∈ user.purchases,
          (List.lookup purchase.category context.categoriesIndex).isSome ∧
          (List.lookup purchase.color context.colorsIndex).isSome) →
        ∃ w, encodeUser user context = some w ∧ w.length = context.dimensions)) := by
  constructor
  · intro products users
    rfl
  · intro context hdim
    constructor
    · intro product hcat hcol
      rcases encodeProduct_some hcat hcol with ⟨v, hv⟩
      exact ⟨v, hv, by rw [hdim]; exact encodeProduct_length hv⟩
    · intro user hne henc
      exact encodeUser_some hdim hne (fun purchase hp =>
        encodeProduct_some (henc purchase hp).1 (henc purchase hp).2)

/-- C6 witness: the dimension theorem applied at the concrete context
`exCtx` (dimensions 4 = 2 + 1 + 1), its product and its purchasing user. -/
theorem encoding_dimensions_witness :
    (∃ v, encodeProduct pA exCtx = some v ∧ v.length = exCtx.dimensions) ∧
    (∃ w, encodeUser uBuyer exCtx = some w ∧ w.length = exCtx.dimensions) :=
  ⟨(encoding_dimensions.2 exCtx (by decide)).1 pA (by decide) (by decide),
   (encoding_dimensions.2 exCtx (by decide)).2 uBuyer (by decide) (by decide)⟩

/-- C7: `encodeProduct` is a pure, deterministic function of the fields it
reads: any two records agreeing on `name`, `category`, `color` and `price`,
encoded under any two contexts agreeing on the bounds, index maps, counts
and average-age table, produce identical vectors (in particular the same
record and context always produce the same vector). -/
theorem encodeProduct_deterministic (p₁ p₂ : Product) (c₁ c₂ : Context)
    (hname : p₁.name = p₂.name) (hcat : p₁.category = p₂.category)
    (hcol : p₁.color = p₂.color) (hprice : p₁.price = p₂.price)
    (hminP : c₁.minPrice = c₂.minPrice) (hmaxP : c₁.maxPrice = c₂.maxPrice)
    (havg : c₁.productAvgAgeNorm = c₂.productAvgAgeNorm)
    (hcatIdx : c₁.categoriesIndex = c₂.categoriesIndex)
    (hcolIdx : c₁.colorsIndex = c₂.colorsIndex)
    (hnumCat : c₁.numCategories = c₂.numCategories)
    (hnumCol : c₁.numColors = c₂.numColors) :
    encodeProduct p₁ c₁ = encodeProduct p₂ c₂ := by
  unfold encodeProduct
  rw [hname, hcat, hcol, hprice, hminP, hmaxP, havg, hcatIdx, hcolIdx, hnumCat, hnumCol]

/-- C7 witness: two product records identical except for their (never-read)
`id` encode to the same vector under `exCtx`. -/
theorem encodeProduct_deterministic_witness :
    encodeProduct pA exCtx = encodeProduct pAalias exCtx :=
  encodeProduct_deterministic pA pAalias exCtx exCtx
    rfl rfl rfl rfl rfl rfl rfl rfl rfl rfl rfl

/-- C8: no division by zero occurs in the encoding pipeline: `normalize`'s
denominator `(max - min || 1)` is nonzero for ALL inputs; the per-product
average-age computation falls back to `avgAge` (no division) whenever the
purchase count is absent or zero; and consequently, over the full JS-number
model, every `productAvgAgeNorm` entry built by `makeContext` from a
non-empty user list is a finite number (no `Infinity`/`NaN` from a zero
denominator). -/
theorem no_division_by_zero :
    (∀ lo hi : ℚ, jsOr (hi - lo) 1 ≠ 0) ∧
    (∀ (sums counts : List (String × ℚ)) (avgAge : ℚ) (name : String),
      (List.lookup name counts).getD 0 = 0 →
      productAvgValue sums counts avgAge name = avgAge) ∧
    (∀ (products : List Product) (users : List User), users ≠ [] →
      ∀ e ∈ (makeContextJs products users).productAvgAgeNorm,
        ∃ q : ℚ, e.2 = JsNum.fin q) := by
  refine ⟨?_, ?_, ?_⟩
  · intro lo hi
    unfold jsOr
    split
    · exact one_ne_zero
    · assumption
  · intro sums counts avgAge name h
    unfold productAvgValue
    rw [if_neg (not_not_intro h)]
  · intro products users hu e he
    rw [makeContextJs_avgNorm] at he
    rcases List.mem_map.mp he with ⟨product, -, rfl⟩
    have hages : ∀ x ∈ users.map (fun user => JsNum.fin user.age),
        ∃ q, x = JsNum.fin q := by
      intro x hx
      rcases List.mem_map.mp hx with ⟨u, -, rfl⟩
      exact ⟨u.age, rfl⟩
    have hne : users.map (fun user => JsNum.fin user.age) ≠ [] := by
      intro hnil
      exact hu (List.map_eq_nil_iff.mp hnil)
    rcases jsMinSpread_fin hages hne with ⟨a, hmin⟩
    rcases jsMaxSpread_fin hages hne with ⟨b, hmax⟩
    have hinv := ageTallyJs_inv users
    have havg : ∃ q, JsNum.jsDiv
        (JsNum.jsAdd
          (JsNum.jsMinSpread (users.map (fun user => JsNum.fin user.age)))
          (JsNum.jsMaxSpread (users.map (fun user => JsNum.fin user.age))))
        (JsNum.fin 2) = JsNum.fin q := by
      rw [hmin, hmax, jsAdd_fin, jsDiv_fin _ two_ne_zero]
      exact ⟨(a + b) / 2, rfl⟩
    rcases productAvgValueJs_fin hinv.1 hinv.2.1 hinv.2.2 havg
      product.name with ⟨qa, hqa⟩
    show ∃ q : ℚ, JsNum.normalizeJs
      (productAvgValueJs (ageTallyJs users).1 (ageTallyJs users).2
        (JsNum.jsDiv
          (JsNum.jsAdd
            (JsNum.jsMinSpread (users.map (fun user => JsNum.fin user.age)))
            (JsNum.jsMaxSpread (users.map (fun user => JsNum.fin user.age))))
          (JsNum.fin 2))
        product.name)
      (JsNum.jsMinSpread (users.map (fun user => JsNum.fin user.age)))
      (JsNum.jsMaxSpread (users.map (fun user => JsNum.fin user.age))) = JsNum.fin q
    rw [hqa, hmin, hmax, normalizeJs_fin]
    exact ⟨_, rfl⟩

/-- C8 witness: the no-division-by-zero theorem applied at concrete inputs:
a degenerate `min = max = 3` denominator, an empty tally, and the context
built from one product and one purchasing user. -/
theorem no_division_by_zero_witness :
    jsOr ((3 : ℚ) - 3) 1 ≠ 0 ∧
    productAvgValue [] [] 7 "a" = 7 ∧
    (∃ q : ℚ, (((makeContextJs [pA] [uBuyer]).productAvgAgeNorm).headD
      ("", JsNum.nan)).2 = JsNum.fin q) :=
  ⟨no_division_by_zero.1 3 3,
   no_division_by_zero.2.1 [] [] 7 "a" rfl,
   no_division_by_zero.2.2 [pA] [uBuyer] (by decide) _
     (headD_mem ("", JsNum.nan) (by decide))⟩

/-!
## IEEE-754 binary64 rounding (for the weight-sum claim)

The development above models JS numbers as exact rationals, which is
faithful for every behaviour the other claims examine. The sum of the four
weight literals is the one place where binary64 rounding is observable: the
engine rounds each decimal literal and each intermediate sum to 53
significant bits. `fl` rounds a rational to the nearest binary64 value
(round to nearest, ties to even) for numbers in the normal range (overflow
and subnormals, many orders of magnitude away from these values, are not
modelled).
-/

/-- Round half to even to an integer. -/
def roundEvenInt (x : ℚ) : ℤ :=
  if x - ⌊x⌋ < 1/2 then ⌊x⌋
  else if 1/2 < x - ⌊x⌋ then ⌊x⌋ + 1
  else if ⌊x⌋ % 2 = 0 then ⌊x⌋ else ⌊x⌋ + 1

/-- Round a rational to the nearest IEEE-754 binary64 value (ties to even):
scale by the exponent so the significand occupies `[2^52, 2^53)`, round to
an integer, and scale back. -/
def fl (q : ℚ) : ℚ :=
  if q = 0 then 0
  else
    (if q < 0 then -(roundEvenInt (|q| * 2 ^ ((52:ℤ) - Int.log 2 |q|)) : ℚ)
     else (roundEvenInt (|q| * 2 ^ ((52:ℤ) - Int.log 2 |q|)) : ℚ)) *
      (2:ℚ) ^ (Int.log 2 |q| - 52)

/-- IEEE-754 binary64 addition: the exact sum, rounded. -/
def jsAddDouble (a b : ℚ) : ℚ := fl (a + b)

/-- The binary64 values actually denoted by the four weight literals
`0.4`, `0.3`, `0.2`, `0.1` of `WEIGHTS` (none of the four decimals is
representable, so each literal is rounded on parsing). -/
def WEIGHTSDouble : WeightsT :=
  { category := fl 0.4, color := fl 0.3, price := fl 0.2, age := fl 0.1 }

theorem int_log_eq {r : ℚ} {e : ℤ} (hr : 0 < r)
    (h1 : (2:ℚ) ^ e ≤ r) (h2 : r < (2:ℚ) ^ (e + 1)) : Int.log 2 r = e := by
  have hb : 1 < (2:ℕ) := by norm_num
  have hcast : ((2:ℕ):ℚ) = (2:ℚ) := by norm_num
  have hl : e ≤ Int.log 2 r := by
    rw [← Int.zpow_le_iff_le_log hb hr, hcast]
    exact h1
  have hu : Int.log 2 r < e + 1 := by
    rw [← Int.lt_zpow_iff_log_lt hb hr, hcast]
    exact h2
  omega

theorem fl_eval {q : ℚ} {e n : ℤ} (hq : 0 < q)
    (h1 : (2:ℚ) ^ e ≤ q) (h2 : q < (2:ℚ) ^ (e + 1))
    (hn : roundEvenInt (q * 2 ^ ((52:ℤ) - e)) = n) :
    fl q = (n : ℚ) * (2:ℚ) ^ (e - 52) := by
  unfold fl
  rw [if_neg hq.ne', abs_of_pos hq, int_log_eq hq h1 h2, if_neg (not_lt.mpr hq.le), hn]

theorem roundEven_a : roundEvenInt (36028797018963968/5 : ℚ) = 7205759403792794 := by
  have hfloor : ⌊(36028797018963968/5 : ℚ)⌋ = 7205759403792793 := by
    rw [Int.floor_eq_iff]
    norm_num
  unfold roundEvenInt
  rw [hfloor]
  norm_num

theorem roundEven_b : roundEvenInt (27021597764222976/5 : ℚ) = 5404319552844595 := by
  have hfloor : ⌊(27021597764222976/5 : ℚ)⌋ = 5404319552844595 := by
    rw [Int.floor_eq_iff]
    norm_num
  unfold roundEvenInt
  rw [hfloor]
  norm_num

theorem roundEven_c : roundEvenInt (12610078956637389/2 : ℚ) = 6305039478318694 := by
  have hfloor : ⌊(12610078956637389/2 : ℚ)⌋ = 6305039478318694 := by
    rw [Int.floor_eq_iff]
    norm_num
  unfold roundEvenInt
  rw [hfloor]
  norm_num

theorem roundEven_d : roundEvenInt (16212958658533785/2 : ℚ) = 8106479329266892 := by
  have hfloor : ⌊(16212958658533785/2 : ℚ)⌋ = 8106479329266892 := by
    rw [Int.floor_eq_iff]
    norm_num
  unfold roundEvenInt
  rw [hfloor]
  norm_num

theorem roundEven_e : roundEvenInt (36028797018963965/4 : ℚ) = 9007199254740991 := by
  have hfloor : ⌊(36028797018963965/4 : ℚ)⌋ = 9007199254740991 := by
    rw [Int.floor_eq_iff]
    norm_num
  unfold roundEvenInt
  rw [hfloor]
  norm_num

theorem fl_04 : fl 0.4 = 3602879701896397 / 9007199254740992 := by
  have hn : roundEvenInt ((0.4:ℚ) * 2 ^ ((52:ℤ) - (-2))) = 7205759403792794 := by
    have harg : (0.4:ℚ) * 2 ^ ((52:ℤ) - (-2)) = 36028797018963968/5 := by norm_num
    rw [harg]
    exact roundEven_a
  have h := fl_eval (by norm_num) (by norm_num : (2:ℚ) ^ (-2:ℤ) ≤ 0.4)
    (by norm_num : (0.4:ℚ) < (2:ℚ) ^ ((-2:ℤ) + 1)) hn
  rw [h]
  norm_num

theorem fl_03 : fl 0.3 = 5404319552844595 / 18014398509481984 := by
  have hn : roundEvenInt ((0.3:ℚ) * 2 ^ ((52:ℤ) - (-2))) = 5404319552844595 := by
    have harg : (0.3:ℚ) * 2 ^ ((52:ℤ) - (-2)) = 27021597764222976/5 := by norm_num
    rw [harg]
    exact roundEven_b
  have h := fl_eval (by norm_num) (by norm_num : (2:ℚ) ^ (-2:ℤ) ≤ 0.3)
    (by norm_num : (0.3:ℚ) < (2:ℚ) ^ ((-2:ℤ) + 1)) hn
  rw [h]
  norm_num

theorem fl_02 : fl 0.2 = 3602879701896397 / 18014398509481984 := by
  have hn : roundEvenInt ((0.2:ℚ) * 2 ^ ((52:ℤ) - (-3))) = 7205759403792794 := by
    have harg : (0.2:ℚ) * 2 ^ ((52:ℤ) - (-3)) = 36028797018963968/5 := by norm_num
    rw [harg]
    exact roundEven_a
  have h := fl_eval (by norm_num) (by norm_num : (2:ℚ) ^ (-3:ℤ) ≤ 0.2)
    (by norm_num : (0.2:ℚ) < (2:ℚ) ^ ((-3:ℤ) + 1)) hn
  rw [h]
  norm_num

theorem fl_01 : fl 0.1 = 3602879701896397 / 36028797018963968 := by
  have hn : roundEvenInt ((0.1:ℚ) * 2 ^ ((52:ℤ) - (-4))) = 7205759403792794 := by
    have harg : (0.1:ℚ) * 2 ^ ((52:ℤ) - (-4)) = 36028797018963968/5 := by norm_num
    rw [harg]
    exact roundEven_a
  have h := fl_eval (by norm_num) (by norm_num : (2:ℚ) ^ (-4:ℤ) ≤ 0.1)
    (by norm_num : (0.1:ℚ) < (2:ℚ) ^ ((-4:ℤ) + 1)) hn
  rw [h]
  norm_num

theorem fl_s1 :
    fl (3602879701896397 / 9007199254740992 + 5404319552844595 / 18014398509481984 : ℚ) =
      3152519739159347 / 4503599627370496 := by
  have hn : roundEvenInt ((3602879701896397 / 9007199254740992 +
      5404319552844595 / 18014398509481984 : ℚ) * 2 ^ ((52:ℤ) - (-1))) =
      6305039478318694 := by
    have harg : (3602879701896397 / 9007199254740992 +
        5404319552844595 / 18014398509481984 : ℚ) * 2 ^ ((52:ℤ) - (-1)) =
        12610078956637389/2 := by norm_num
    rw [harg]
    exact roundEven_c
  have h := fl_eval (by norm_num)
    (by norm_num : (2:ℚ) ^ (-1:ℤ) ≤ 3602879701896397 / 9007199254740992 +
      5404319552844595 / 18014398509481984)
    (by norm_num : (3602879701896397 / 9007199254740992 +
      5404319552844595 / 18014398509481984 : ℚ) < (2:ℚ) ^ ((-1:ℤ) + 1)) hn
  rw [h]
  norm_num

theorem fl_s2 :
    fl (3152519739159347 / 4503599627370496 + 3602879701896397 / 18014398509481984 : ℚ) =
      2026619832316723 / 2251799813685248 := by
  have hn : roundEvenInt ((3152519739159347 / 4503599627370496 +
      3602879701896397 / 18014398509481984 : ℚ) * 2 ^ ((52:ℤ) - (-1))) =
      8106479329266892 := by
    have harg : (3152519739159347 / 4503599627370496 +
        3602879701896397 / 18014398509481984 : ℚ) * 2 ^ ((52:ℤ) - (-1)) =
        16212958658533785/2 := by norm_num
    rw [harg]
    exact roundEven_d
  have h := fl_eval (by norm_num)
    (by norm_num : (2:ℚ) ^ (-1:ℤ) ≤ 3152519739159347 / 4503599627370496 +
      3602879701896397 / 18014398509481984)
    (by norm_num : (3152519739159347 / 4503599627370496 +
      3602879701896397 / 18014398509481984 : ℚ) < (2:ℚ) ^ ((-1:ℤ) + 1)) hn
  rw [h]
  norm_num

theorem fl_s3 :
    fl (2026619832316723 / 2251799813685248 + 3602879701896397 / 36028797018963968 : ℚ) =
      9007199254740991 / 9007199254740992 := by
  have hn : roundEvenInt ((2026619832316723 / 2251799813685248 +
      3602879701896397 / 36028797018963968 : ℚ) * 2 ^ ((52:ℤ) - (-1))) =
      9007199254740991 := by
    have harg : (2026619832316723 / 2251799813685248 +
        3602879701896397 / 36028797018963968 : ℚ) * 2 ^ ((52:ℤ) - (-1)) =
        36028797018963965/4 := by norm_num
    rw [harg]
    exact roundEven_e
  have h := fl_eval (by norm_num)
    (by norm_num : (2:ℚ) ^ (-1:ℤ) ≤ 2026619832316723 / 2251799813685248 +
      3602879701896397 / 36028797018963968)
    (by norm_num : (2026619832316723 / 2251799813685248 +
      3602879701896397 / 36028797018963968 : ℚ) < (2:ℚ) ^ ((-1:ℤ) + 1)) hn
  rw [h]
  norm_num

/-- C9 (amended): in the program's IEEE-754 double semantics, the
left-to-right sum `WEIGHTS.category + WEIGHTS.color + WEIGHTS.price +
WEIGHTS.age` evaluates to the binary64 value `9007199254740991 / 2^53`
(printed `0.9999999999999999`) — one unit in the last place below `1`, not
exactly `1.0`: `fl(0.4) + fl(0.3)` ties to even at the double `0.7`,
`+ fl(0.2)` ties to even DOWN to `0.8999999999999999`, and `+ fl(0.1)` lands
just below `1`. The four decimal literals sum to exactly `1` only in exact
(rational) arithmetic, which is the convention the spec refers to; the code
itself never computes this sum. -/
theorem weights_sum_double :
    jsAddDouble (jsAddDouble (jsAddDouble WEIGHTSDouble.category WEIGHTSDouble.color)
        WEIGHTSDouble.price) WEIGHTSDouble.age =
      9007199254740991 / 9007199254740992 ∧
    (9007199254740991 / 9007199254740992 : ℚ) ≠ 1 ∧
    WEIGHTS.category + WEIGHTS.color + WEIGHTS.price + WEIGHTS.age = 1 := by
  refine ⟨?_, by norm_num, by norm_num [WEIGHTS]⟩
  show fl (fl (fl (fl 0.4 + fl 0.3) + fl 0.2) + fl 0.1) =
    9007199254740991 / 9007199254740992
  rw [fl_04, fl_03, fl_s1, fl_02, fl_s2, fl_01, fl_s3]

/-- C9 counterexample: the IEEE-754 double sum of the four weight literals,
in the claim's left-to-right order, is not exactly `1.0`. -/
theorem weights_sum_double_cex :
    jsAddDouble (jsAddDouble (jsAddDouble WEIGHTSDouble.category WEIGHTSDouble.color)
        WEIGHTSDouble.price) WEIGHTSDouble.age ≠ 1 := by
  show fl (fl (fl (fl 0.4 + fl 0.3) + fl 0.2) + fl 0.1) ≠ 1
  rw [fl_04, fl_03, fl_s1, fl_02, fl_s2, fl_01, fl_s3]
  norm_num

/-- C10: a user with an empty purchase list makes `encodeUser` return no
vector (`undefined`, modelled `none`) rather than a zero or default vector;
hence the stub worker's `createTrainingData` fails (`undefined.dataSync()`
throws) whenever such a user is present, while the real-training worker's
variant is unchanged by removing those users — it excludes them from the
training set. -/
theorem encodeUser_empty_purchases :
    (∀ (user : User) (context : Context), user.purchases = [] →
      encodeUser user context = none) ∧
    (∀ context : Context, (∃ user ∈ context.users, user.purchases = []) →
      createTrainingDataStub context = none) ∧
    (∀ context : Context,
      createTrainingData context =
        createTrainingData { context with
          users := context.users.filter (fun user => user.purchases.length != 0) }) := by
  have h1 : ∀ (user : User) (context : Context), user.purchases = [] →
      encodeUser user context = none := by
    intro user context h
    simp [encodeUser, h]
  refine ⟨h1, ?_, ?_⟩
  · rintro context ⟨user, hu, hpu⟩
    have hrows : trainingRows context context.users = none := by
      have hf : (match encodeUser user context with
          | none => none
          | some userVector =>
            optMap (fun product =>
              match encodeProduct product context with
              | none => none
              | some productVector =>
                some (userVector ++ productVector,
                  user.purchases.any (fun purchase => purchase.name == product.name)))
              context.products) = (none : Option (List (List ℚ × Bool))) := by
        rw [h1 user context hpu]
      have hnone := @optMap_none User (List (List ℚ × Bool))
        (fun user =>
          match encodeUser user context with
          | none => none
          | some userVector =>
            optMap (fun product =>
              match encodeProduct product context with
              | none => none
              | some productVector =>
                some (userVector ++ productVector,
                  user.purchases.any (fun purchase => purchase.name == product.name)))
              context.products)
        context.users user hu hf
      simp only [trainingRows, hnone, Option.map_none']
    simp only [createTrainingDataStub, hrows]
  · intro context
    obtain ⟨products, users, cI, catI, mA, xA, mP, xP, avgN, nC, nK, dims⟩ := context
    simp only [createTrainingData, List.filter_filter, Bool.and_self]
    rfl

/-- C10 witness: the empty-purchases theorem applied at the concrete user
`uIdle` (no purchases) and the concrete context `exCtx` containing them. -/
theorem encodeUser_empty_purchases_witness :
    encodeUser uIdle exCtx = none ∧ createTrainingDataStub exCtx = none :=
  ⟨encodeUser_empty_purchases.1 uIdle exCtx rfl,
   encodeUser_empty_purchases.2.1 exCtx
     ⟨uIdle, List.mem_cons_of_mem _ (List.mem_cons_self _ _), rfl⟩⟩

end Fia
